import Mathlib

/-!
# Fogchan — verification of the client-side crypto/session core

Shallow embedding of the Fogchan client code (SDK `src/sdk/src/index.ts`,
web crypto library and chat module) in Lean 4, together with proofs about
the embedded definitions.

Conventions of the embedding:
* JavaScript strings are modelled as `List Char` where character-level
  processing matters (codecs, URL parsing); higher-level payload fields
  use Lean `String`.
* `Uint8Array` values are `List Nat` whose elements are below 256.
* Host functions (`parseInt`, `btoa`/`atob`, `new URL`, WebCrypto,
  `JSON.stringify`/`JSON.parse`) are modelled by Lean functions that follow
  the relevant ECMAScript/WHATWG algorithms on the inputs the code exercises;
  each such model carries a doc comment saying what it models.
* Fallible operations return `Option`/`Except`; a JavaScript `throw` is `none`
  or `.error`.
-/

namespace Fogchan

/-! ## Codec layer — `src/unnamed/part_005` lines 69–100 -/

/-- Value of a hexadecimal digit character, accepting both cases
(as ECMAScript `parseInt` with radix 16 does). -/
def hexDigitVal (c : Char) : Option Nat :=
  if '0' ≤ c ∧ c ≤ '9' then some (c.toNat - 48)
  else if 'a' ≤ c ∧ c ≤ 'f' then some (c.toNat - 87)
  else if 'A' ≤ c ∧ c ≤ 'F' then some (c.toNat - 55)
  else none

/-- ECMAScript `StrWhiteSpace` characters skipped by `parseInt`
(ASCII portion; the code never feeds non-ASCII whitespace). -/
def isJsSpace (c : Char) : Bool :=
  c = ' ' ∨ c = '\t' ∨ c = '\n' ∨ c = '\x0b' ∨ c = '\x0c' ∨ c = '\r'

/-- Model of ECMAScript `parseInt(s, 16)`: skip leading whitespace, read an
optional sign, strip an optional `0x`/`0X` prefix, then parse the longest
prefix of hexadecimal digits; `none` models the `NaN` result when no digit
is found. -/
def jsParseInt16 (s : List Char) : Option Int :=
  let s1 := s.dropWhile isJsSpace
  let signAndRest : Int × List Char :=
    match s1 with
    | '+' :: r => (1, r)
    | '-' :: r => (-1, r)
    | r => (1, r)
  let s2 :=
    match signAndRest.2 with
    | '0' :: 'x' :: r => r
    | '0' :: 'X' :: r => r
    | _ => signAndRest.2
  let digits := s2.takeWhile (fun c => (hexDigitVal c).isSome)
  if digits.isEmpty then none
  else some (signAndRest.1 *
    (digits.foldl (fun acc c => acc * 16 + ((hexDigitVal c).getD 0 : Int)) 0))

/-- ECMAScript `ToUint8` applied when storing a `parseInt` result into a
`Uint8Array` element: `NaN` becomes `+0`, an integer is reduced mod 256. -/
def jsToUint8 (v : Option Int) : Nat :=
  match v with
  | none => 0
  | some n => (n % 256).toNat

/-- The loop body of `hexToBytes`: decode successive two-character groups
with `parseInt(·, 16)` and store them as `Uint8Array` elements. -/
def hexPairsDecode : List Char → List Nat
  | c1 :: c2 :: rest => jsToUint8 (jsParseInt16 [c1, c2]) :: hexPairsDecode rest
  | _ => []

/-- `hexToBytes(hex)`: `new Uint8Array(hex.length / 2)` never throws —
`ToIndex` truncates a non-integral length — so for odd `hex.length` the
array has `⌊length/2⌋` cells and the loop's final store (at index
`⌊length/2⌋`, from the trailing lone character) is an out-of-bounds
typed-array write, which is silently ignored.  Hence: decode consecutive
full two-character groups with `parseInt(·, 16)`, dropping a trailing
half group. -/
def hexToBytes (hex : List Char) : List Nat :=
  hexPairsDecode hex

/-- Lowercase hexadecimal digit character for a value below 16, as produced
by `Number.prototype.toString(16)`. -/
def hexDigitChar (n : Nat) : Char :=
  if n < 10 then Char.ofNat (48 + n) else Char.ofNat (87 + n)

/-- `b.toString(16).padStart(2, '0')` for a byte `b < 256`. -/
def toHexPair (b : Nat) : List Char :=
  [hexDigitChar (b / 16), hexDigitChar (b % 16)]

/-- `bytesToHex(bytes)`: map each byte to its two-character lowercase
hexadecimal form and concatenate. -/
def bytesToHex (bytes : List Nat) : List Char :=
  (bytes.map toHexPair).flatten

/-- Character of the standard base64 alphabet for a six-bit value. -/
def b64Char (n : Nat) : Char :=
  if n < 26 then Char.ofNat (65 + n)
  else if n < 52 then Char.ofNat (97 + (n - 26))
  else if n < 62 then Char.ofNat (48 + (n - 52))
  else if n = 62 then '+' else '/'

/-- Six-bit value of a standard base64 alphabet character, `none` for any
character outside the alphabet (including `=`). -/
def b64Index (c : Char) : Option Nat :=
  if 'A' ≤ c ∧ c ≤ 'Z' then some (c.toNat - 65)
  else if 'a' ≤ c ∧ c ≤ 'z' then some (c.toNat - 97 + 26)
  else if '0' ≤ c ∧ c ≤ '9' then some (c.toNat - 48 + 52)
  else if c = '+' then some 62
  else if c = '/' then some 63
  else none

/-- Model of `btoa(String.fromCharCode(...bytes))`: standard base64 with
padding, three bytes per four characters (bit arithmetic written with
division/modulus: `x >> k` is `x / 2^k`, `x & (2^k - 1)` is `x % 2^k`). -/
def b64Encode : List Nat → List Char
  | [] => []
  | [a] => [b64Char (a / 4), b64Char (a % 4 * 16), '=', '=']
  | [a, b] => [b64Char (a / 4), b64Char (a % 4 * 16 + b / 16), b64Char (b % 16 * 4), '=']
  | a :: b :: c :: rest =>
      b64Char (a / 4) :: b64Char (a % 4 * 16 + b / 16) ::
      b64Char (b % 16 * 4 + c / 64) :: b64Char (c % 64) :: b64Encode rest

/-- `bytesToBase64(bytes)` = `btoa(String.fromCharCode(...bytes))`. -/
def bytesToBase64 (bytes : List Nat) : List Char :=
  b64Encode bytes

/-- ASCII whitespace removed by the WHATWG forgiving-base64 decoder. -/
def isB64Ws (c : Char) : Bool :=
  c = '\t' ∨ c = '\n' ∨ c = '\x0c' ∨ c = '\r' ∨ c = ' '

/-- Drop up to two leading `=` characters (used on the reversed data, this
is the forgiving-base64 removal of one or two trailing `=`). -/
def dropEq (s : List Char) : List Char :=
  match s with
  | c :: rest =>
      if c = '=' then
        match rest with
        | d :: rest2 => if d = '=' then rest2 else rest
        | [] => rest
      else s
  | [] => s

/-- Forgiving-base64 step: when the data length is a multiple of four,
remove one or two trailing `=` characters. -/
def stripPad (s : List Char) : List Char :=
  (dropEq s.reverse).reverse

/-- Decode whitespace-free, padding-free base64 data four characters at a
time; a trailing group of two or three characters yields one or two bytes
(the leftover low bits are discarded, as the forgiving decoder does), a
trailing single character is an error, as is any character outside the
alphabet. -/
def b64DecodeGroups : List Char → Option (List Nat)
  | [] => some []
  | [c1, c2] => do
      let a ← b64Index c1
      let b ← b64Index c2
      pure [a * 4 + b / 16]
  | [c1, c2, c3] => do
      let a ← b64Index c1
      let b ← b64Index c2
      let c ← b64Index c3
      pure [a * 4 + b / 16, b % 16 * 16 + c / 4]
  | c1 :: c2 :: c3 :: c4 :: rest => do
      let a ← b64Index c1
      let b ← b64Index c2
      let c ← b64Index c3
      let d ← b64Index c4
      let tl ← b64DecodeGroups rest
      pure ((a * 4 + b / 16) :: (b % 16 * 16 + c / 4) :: (c % 4 * 64 + d) :: tl)
  | [_] => none

/-- Model of `atob`: the WHATWG forgiving-base64 decoder — strip ASCII
whitespace, strip up to two trailing `=` when the length is a multiple of
four, then decode; a leftover length of 1 mod 4 or a character outside the
alphabet throws (`none`). -/
def atob (input : List Char) : Option (List Nat) :=
  let data := input.filter (fun c => ¬ isB64Ws c)
  let data' := if data.length % 4 = 0 then stripPad data else data
  b64DecodeGroups data'

/-- `base64ToBytes(str)` = `Uint8Array.from(atob(str), c => c.charCodeAt(0))`. -/
def base64ToBytes (str : List Char) : Option (List Nat) :=
  atob str

/-- The character replacement performed by `bytesToBase64Url`:
`+` becomes `-` and `/` becomes `_`. -/
def urlFwd (c : Char) : Char :=
  if c = '+' then '-' else if c = '/' then '_' else c

/-- The inverse replacement performed by `base64UrlToBytes`:
`-` becomes `+` and `_` becomes `/`. -/
def urlBack (c : Char) : Char :=
  if c = '-' then '+' else if c = '_' then '/' else c

/-- `bytesToBase64Url(bytes)`: standard base64, then `+`→`-`, `/`→`_`,
and every `=` removed. -/
def bytesToBase64Url (bytes : List Nat) : List Char :=
  ((b64Encode bytes).map urlFwd).filter (fun c => c ≠ '=')

/-- `base64UrlToBytes(str)`: `-`→`+`, `_`→`/`, re-pad with `=` to a
multiple of four, then `atob`. -/
def base64UrlToBytes (str : List Char) : Option (List Nat) :=
  let base64 := str.map urlBack
  let padded := base64 ++ List.replicate ((4 - base64.length % 4) % 4) '='
  atob padded

/-! ## Ideal model of the WebCrypto primitives

`crypto.subtle` (ECDSA P-256 signing and AES-256-GCM) and
`JSON.stringify`/`JSON.parse` are host functions.  They are modelled as
ideal primitives: keys, signatures and ciphertexts are symbolic terms
recording exactly the data the real primitives bind together, and the
base64 transport encodings of key/signature/ciphertext material (proved
inverse in the codec layer above) are collapsed into the abstract values. -/

/-- An ECDSA P-256 private key (pkcs8/base64 in the source), abstractly. -/
structure PrivKey where
  seed : Nat
deriving DecidableEq

/-- An ECDSA P-256 public key (spki/base64 in the source), abstractly. -/
structure PubKey where
  seed : Nat
deriving DecidableEq

/-- The public half corresponding to a private key (the pair produced by
`crypto.subtle.generateKey`). -/
def pubOf (k : PrivKey) : PubKey :=
  ⟨k.seed⟩

/-- An ECDSA signature, as an ideal-signature-scheme term: it records the
signing key and the exact signed data. -/
structure Sig where
  key : PrivKey
  data : String
deriving DecidableEq

/-- `signMessage(content, privateKeyBase64)`: sign `content` with the
private key (`crypto.subtle.sign` under the ideal model). -/
def signMessage (content : String) (privateKeyBase64 : PrivKey) : Sig :=
  ⟨privateKeyBase64, content⟩

/-- `verifySignature(content, signatureBase64, publicKeyBase64)`:
`crypto.subtle.verify` under the ideal model — true exactly when the
signature was produced over `content` by the private key matching the
given public key.  The source's try/catch for malformed key or signature
encodings has no counterpart here because the abstract types contain only
well-formed values. -/
def verifySignature (content : String) (signatureBase64 : Sig)
    (publicKeyBase64 : PubKey) : Bool :=
  pubOf signatureBase64.key = publicKeyBase64 ∧ signatureBase64.data = content

/-- A public-key fingerprint (first four hex characters of the SHA-256 of
the key bytes in the source); SHA-256 truncation is modelled as a symbolic
injective function of the key. -/
structure Fingerprint where
  ofKey : PubKey
deriving DecidableEq

/-- `getPublicKeyFingerprint(publicKeyBase64)`. -/
def getPublicKeyFingerprint (publicKeyBase64 : PubKey) : Fingerprint :=
  ⟨publicKeyBase64⟩

/-- Message type: `'text' | 'system'`. -/
inductive MsgType where
  | text
  | system
deriving DecidableEq

/-- `EncryptedPayload` of `src/unnamed/part_005`: the decrypted JSON unit
of encryption.  `publicKey`/`signature` are optional; the SDK's payloads
are the same shape with both fields absent. -/
structure EncryptedPayload where
  sender : String
  content : String
  type : MsgType
  publicKey : Option PubKey := none
  signature : Option Sig := none
deriving DecidableEq

/-- `PlaintextMessage` of `src/unnamed/part_005` (the verified message). -/
structure PlaintextMessage where
  id : String
  sender : String
  content : String
  timestamp : Nat
  type : MsgType
  publicKey : Option PubKey := none
  fingerprint : Option Fingerprint := none
  verified : Bool := false
deriving DecidableEq

/-- `createSignedPayload(sender, content, type, privateKeyBase64,
publicKeyBase64)` — signs the combination `sender + ":" + content` and
returns a payload carrying the signature and the given public key. -/
def createSignedPayload (sender content : String) (type : MsgType)
    (privateKeyBase64 : PrivKey) (publicKeyBase64 : PubKey) : EncryptedPayload :=
  let dataToSign := sender ++ ":" ++ content
  { sender := sender
    content := content
    type := type
    publicKey := some publicKeyBase64
    signature := some (signMessage dataToSign privateKeyBase64) }

/-- `verifyPayload(payload, messageId, timestamp)`: when both `publicKey`
and `signature` are present, recompute `sender:content`, verify the
signature against the embedded key and compute its fingerprint; otherwise
`verified` is false and `fingerprint` is absent. -/
def verifyPayload (payload : EncryptedPayload) (messageId : String)
    (timestamp : Nat) : PlaintextMessage :=
  match payload.publicKey, payload.signature with
  | some pk, some sg =>
      let dataToVerify := payload.sender ++ ":" ++ payload.content
      { id := messageId
        sender := payload.sender
        content := payload.content
        timestamp := timestamp
        type := payload.type
        publicKey := some pk
        fingerprint := some (getPublicKeyFingerprint pk)
        verified := verifySignature dataToVerify sg pk }
  | _, _ =>
      { id := messageId
        sender := payload.sender
        content := payload.content
        timestamp := timestamp
        type := payload.type
        publicKey := payload.publicKey
        fingerprint := none
        verified := false }

/-- An AES-256 symmetric room key (base64url in the source), abstractly. -/
structure SymKey where
  seed : Nat
deriving DecidableEq

/-- A 12-byte GCM nonce drawn from `crypto.getRandomValues`, abstractly. -/
structure IV where
  seed : Nat
deriving DecidableEq

/-- An AES-GCM ciphertext+tag under the ideal AEAD model: a symbolic term
recording the key, the nonce and the serialized plaintext payload
(`JSON.stringify` and the base64 transport are collapsed into it, the
former being modelled as an ideal injective serialization). -/
inductive GcmCiphertext where
  | aesGcm (key : SymKey) (iv : IV) (plain : EncryptedPayload)
deriving DecidableEq

/-- `EncryptResult`: the `{ciphertext, iv}` pair returned by encryption. -/
structure EncryptResult where
  ciphertext : GcmCiphertext
  iv : IV
deriving DecidableEq

/-- `encryptMessage(payload, secretKey)` (also `CryptoUtils.encrypt` of the
SDK): serialize the payload, draw a fresh nonce (passed here as the
explicit randomness argument `iv`), and encrypt.  The result's `iv` field
is the drawn nonce. -/
def encryptMessage (payload : EncryptedPayload) (secretKey : SymKey)
    (iv : IV) : EncryptResult :=
  { ciphertext := .aesGcm secretKey iv payload, iv := iv }

/-- `decryptMessage(ciphertext, iv, secretKey)` (also `CryptoUtils.decrypt`
of the SDK): authenticated decryption — fails (`none`, a thrown
`DOMException` in the source) unless the key and nonce match the ones the
ciphertext was produced under; then parse the recovered payload. -/
def decryptMessage (ciphertext : GcmCiphertext) (iv : IV)
    (secretKey : SymKey) : Option EncryptedPayload :=
  match ciphertext with
  | .aesGcm k i p => if k = secretKey ∧ i = iv then some p else none

/-! ## SDK `Session` — `src/sdk/src/index.ts` lines 227–401 -/

/-- A stored encrypted message as returned by the storage service. -/
structure EncryptedMessage where
  id : String
  ciphertext : GcmCiphertext
  iv : IV
  timestamp : Nat
deriving DecidableEq

/-- The SDK's `PlaintextMessage` (no identity fields). -/
structure SdkMessage where
  id : String
  sender : String
  content : String
  timestamp : Nat
  type : MsgType
deriving DecidableEq

/-- The session-owned mutable state: the `lastTimestamp` high-water mark,
the `seenIds` dedup set (a JS `Set`, modelled by its membership list) and
whether `intervalId` currently holds a scheduled poll timer. -/
structure SessionState where
  lastTimestamp : Nat := 0
  seenIds : List String := []
  intervalActive : Bool := false
deriving DecidableEq

/-- Events emitted by the SDK session (`message`, `decrypt_error`,
`error`); the carried exception objects are elided. -/
inductive SessionEvent where
  | message (m : SdkMessage)
  | decryptErr (id : String)
  | error
deriving DecidableEq

/-- The body of the SDK poll loop for one message (`index.ts` 360–382):
skip ids already in `seenIds`; otherwise emit `message` on successful
decryption or `decrypt_error` on failure, then unconditionally record the
id and advance `lastTimestamp` when the message's timestamp exceeds it. -/
def processMessage (secretKey : SymKey) (st : SessionState)
    (msg : EncryptedMessage) : SessionState × List SessionEvent :=
  if msg.id ∈ st.seenIds then (st, [])
  else
    let evs :=
      match decryptMessage msg.ciphertext msg.iv secretKey with
      | some payload =>
          [SessionEvent.message
            { id := msg.id
              sender := payload.sender
              content := payload.content
              timestamp := msg.timestamp
              type := payload.type }]
      | none => [SessionEvent.decryptErr msg.id]
    ({ st with
        seenIds := msg.id :: st.seenIds
        lastTimestamp :=
          if st.lastTimestamp < msg.timestamp then msg.timestamp
          else st.lastTimestamp },
      evs)

/-- The SDK poll loop over a page of messages, in received order. -/
def processMessages (secretKey : SymKey) (st : SessionState)
    (msgs : List EncryptedMessage) : SessionState × List SessionEvent :=
  msgs.foldl
    (fun acc m =>
      let r := processMessage secretKey acc.1 m
      (r.1, acc.2 ++ r.2))
    (st, [])

/-- Outcome of the poll cycle's transport interaction: the fetch (or
`response.json()`) threw, the response had a non-success status, or a
parsed body `{messages, messageCount}` arrived. -/
inductive PollResult where
  | fetchThrow
  | httpError
  | ok (messages : List EncryptedMessage) (messageCount : Nat)

/-- `Session.poll` (`index.ts` 350–386) for one cycle, given the transport
outcome: a throw anywhere is caught and emits `error`; a non-success
status returns silently; otherwise every received message is processed.
The `messageCount` field of the body is never read. -/
def Session.poll (secretKey : SymKey) (st : SessionState)
    (resp : PollResult) : SessionState × List SessionEvent :=
  match resp with
  | .fetchThrow => (st, [SessionEvent.error])
  | .httpError => (st, [])
  | .ok messages _ => processMessages secretKey st messages

/-- JavaScript `a || b` applied to an optional string field: a missing
field (`undefined`) or an empty string is falsy and selects the fallback. -/
def jsOrDefault (v : Option String) (d : String) : String :=
  match v with
  | some s => if s.isEmpty then d else s
  | none => d

/-- The ways `Session.send` can fail: the fetch rejected (re-raised), or a
non-success status produced `new Error(error.error || 'Failed to send
message')`. -/
inductive SendFailure where
  | fetchThrew
  | serverError (message : String)
deriving DecidableEq

/-- Transport outcome of the send POST: fetch threw, non-success status
with an optional `error` field in the body, or success with the
server-assigned id and timestamp in the body. -/
inductive HttpSendResult where
  | fetchThrow
  | errStatus (errField : Option String)
  | okResp (id : String) (timestamp : Nat)

/-- What a call to `Session.send` produces: the `{ciphertext, iv}` body it
POSTs, its resolution (`Promise<void>`), and the session state afterwards. -/
structure SendOutcome where
  submitted : EncryptResult
  result : Except SendFailure Unit
  state : SessionState

/-- `Session.send(content)` (`index.ts` 276–295): build the payload
`{sender: this.name, content, type: 'text'}`, encrypt it under the session
key (with fresh randomness `iv`), POST it; throw on failure, resolve with
no value on success.  `seenIds`/`lastTimestamp` are never touched. -/
def Session.send (name : String) (secretKey : SymKey) (st : SessionState)
    (content : String) (iv : IV) (resp : HttpSendResult) : SendOutcome :=
  let payload : EncryptedPayload := { sender := name, content := content, type := .text }
  let enc := encryptMessage payload secretKey iv
  match resp with
  | .fetchThrow => ⟨enc, .error .fetchThrew, st⟩
  | .errStatus errField =>
      ⟨enc, .error (.serverError (jsOrDefault errField "Failed to send message")), st⟩
  | .okResp _ _ => ⟨enc, .ok (), st⟩

/-! ## Web chat module — `src/unnamed/part_004` -/

/-- The chat module's session state: `lastTimestamp` and the
`displayedMessages` dedup set. -/
structure ChatState where
  lastTimestamp : Nat := 0
  displayedMessages : List String := []
deriving DecidableEq

/-- Observable effects of the chat module's poll: rendering a decrypted,
verified message (with its ciphertext kept for display) or rendering a
decryption-failure placeholder. -/
inductive ChatEvent where
  | render (m : PlaintextMessage) (ciphertext : GcmCiphertext)
  | renderDecryptErr (id : String)
deriving DecidableEq

/-- The body of the chat module's poll loop for one message
(`part_004` 196–222): skip displayed ids; otherwise decrypt, verify and
render (or render a decrypt-error placeholder), then record the id and
advance `lastTimestamp`. -/
def processChatMessage (secretKey : SymKey) (st : ChatState)
    (msg : EncryptedMessage) : ChatState × List ChatEvent :=
  if msg.id ∈ st.displayedMessages then (st, [])
  else
    let evs :=
      match decryptMessage msg.ciphertext msg.iv secretKey with
      | some payload =>
          let verified := verifyPayload payload msg.id msg.timestamp
          [ChatEvent.render
            { id := msg.id
              sender := verified.sender
              content := verified.content
              timestamp := verified.timestamp
              type := verified.type
              publicKey := verified.publicKey
              fingerprint := verified.fingerprint
              verified := verified.verified }
            msg.ciphertext]
      | none => [ChatEvent.renderDecryptErr msg.id]
    ({ lastTimestamp :=
          if st.lastTimestamp < msg.timestamp then msg.timestamp
          else st.lastTimestamp
       displayedMessages := msg.id :: st.displayedMessages },
      evs)

/-- Transport outcome of the chat module's `getMessages` call: it throws
on any network error or non-success status, otherwise delivers
`{messages, messageCount}`. -/
inductive ChatPollResult where
  | throwErr
  | ok (messages : List EncryptedMessage) (messageCount : Nat)

/-- The chat module's `poll` (`part_004` 182–226) for an active session:
on a transport failure the error is only logged (no state change, no
event); when the server reports `messageCount === 0` while local messages
are displayed, all local session state is cleared and the cycle ends;
otherwise every received message is processed. -/
def chatPoll (secretKey : SymKey) (st : ChatState) (resp : ChatPollResult) :
    ChatState × List ChatEvent :=
  match resp with
  | .throwErr => (st, [])
  | .ok messages messageCount =>
      if messageCount = 0 ∧ st.displayedMessages ≠ [] then
        ({ lastTimestamp := 0, displayedMessages := [] }, [])
      else
        messages.foldl
          (fun acc m =>
            let r := processChatMessage secretKey acc.1 m
            (r.1, acc.2 ++ r.2))
          (st, [])

/-! ## URL / link codec — `src/unnamed/part_005` lines 379–406 -/

set_option maxRecDepth 40000 in
theorem jsParseInt16_toHexPair : ∀ b, b < 256 → jsParseInt16 (toHexPair b) = some (b : Int) := by
  decide

theorem jsToUint8_coe (b : Nat) (hb : b < 256) : jsToUint8 (some (b : Int)) = b := by
  simp only [jsToUint8]
  omega

theorem bytesToHex_cons (b : Nat) (l : List Nat) :
    bytesToHex (b :: l) = toHexPair b ++ bytesToHex l := by
  simp [bytesToHex]

theorem hexPairsDecode_bytesToHex (l : List Nat) (h : ∀ b ∈ l, b < 256) :
    hexPairsDecode (bytesToHex l) = l := by
  induction l with
  | nil => rfl
  | cons b t ih =>
      have hb : b < 256 := h b (List.mem_cons_self b t)
      rw [bytesToHex_cons]
      show hexPairsDecode (hexDigitChar (b / 16) :: hexDigitChar (b % 16) :: bytesToHex t) = b :: t
      rw [hexPairsDecode]
      have : [hexDigitChar (b / 16), hexDigitChar (b % 16)] = toHexPair b := rfl
      rw [this, jsParseInt16_toHexPair b hb, jsToUint8_coe b hb,
        ih (fun x hx => h x (List.mem_cons_of_mem b hx))]

theorem length_bytesToHex (l : List Nat) : (bytesToHex l).length = 2 * l.length := by
  induction l with
  | nil => rfl
  | cons b t ih => rw [bytesToHex_cons]; simp [toHexPair, ih]; ring

theorem hexToBytes_bytesToHex (l : List Nat) (h : ∀ b ∈ l, b < 256) :
    hexToBytes (bytesToHex l) = l :=
  hexPairsDecode_bytesToHex l h

theorem hexPairsDecode_append_single (c : Char) :
    ∀ s : List Char, s.length % 2 = 0 → hexPairsDecode (s ++ [c]) = hexPairsDecode s := by
  intro s
  induction s using hexPairsDecode.induct with
  | case1 c1 c2 rest ih =>
      intro h
      simp only [List.length_cons] at h
      simp only [List.cons_append, hexPairsDecode, List.append_eq]
      rw [ih (by omega)]
  | case2 x hx =>
      intro h
      match x, hx, h with
      | [], _, _ => rfl
      | [c1], _, h => simp at h
      | c1 :: c2 :: rest, hx, _ => exact absurd rfl (hx c1 c2 rest)

set_option maxRecDepth 40000 in
theorem b64Char_spec : ∀ n, n < 64 →
    b64Index (b64Char n) = some n ∧ isB64Ws (b64Char n) = false ∧ b64Char n ≠ '=' ∧
    urlBack (urlFwd (b64Char n)) = b64Char n ∧ urlFwd (b64Char n) ≠ '=' := by
  decide

theorem b64Encode_mem (l : List Nat) (h : ∀ b ∈ l, b < 256) :
    ∀ c ∈ b64Encode l, c = '=' ∨ ∃ n, n < 64 ∧ c = b64Char n := by
  induction l using b64Encode.induct with
  | case1 => intro c hc; simp [b64Encode] at hc
  | case2 a =>
      intro c hc
      have ha : a < 256 := h a (by simp)
      simp only [b64Encode, List.mem_cons, List.mem_singleton] at hc
      rcases hc with h1 | h1 | h1 | h1 | h1
      · exact Or.inr ⟨a / 4, by omega, h1⟩
      · exact Or.inr ⟨a % 4 * 16, by omega, h1⟩
      · exact Or.inl h1
      · exact Or.inl h1
      · exact absurd h1 (by simp)
  | case3 a b =>
      intro c hc
      have ha : a < 256 := h a (by simp)
      have hb : b < 256 := h b (by simp)
      simp only [b64Encode, List.mem_cons, List.mem_singleton] at hc
      rcases hc with h1 | h1 | h1 | h1 | h1
      · exact Or.inr ⟨a / 4, by omega, h1⟩
      · exact Or.inr ⟨a % 4 * 16 + b / 16, by omega, h1⟩
      · exact Or.inr ⟨b % 16 * 4, by omega, h1⟩
      · exact Or.inl h1
      · exact absurd h1 (by simp)
  | case4 a b c rest ih =>
      intro x hx
      have ha : a < 256 := h a (by simp)
      have hb : b < 256 := h b (by simp)
      have hc : c < 256 := h c (by simp)
      simp only [b64Encode, List.mem_cons] at hx
      rcases hx with h1 | h1 | h1 | h1 | h1
      · exact Or.inr ⟨a / 4, by omega, h1⟩
      · exact Or.inr ⟨a % 4 * 16 + b / 16, by omega, h1⟩
      · exact Or.inr ⟨b % 16 * 4 + c / 64, by omega, h1⟩
      · exact Or.inr ⟨c % 64, by omega, h1⟩
      · exact ih (fun y hy => h y (by simp [hy])) x h1

theorem b64Encode_no_ws (l : List Nat) (h : ∀ b ∈ l, b < 256) :
    (b64Encode l).filter (fun c => ¬ isB64Ws c) = b64Encode l := by
  rw [List.filter_eq_self]
  intro c hc
  rcases b64Encode_mem l h c hc with h1 | ⟨n, hn, h1⟩
  · subst h1; decide
  · subst h1; simp [(b64Char_spec n hn).2.1]

theorem b64Encode_length_mod (l : List Nat) : (b64Encode l).length % 4 = 0 := by
  induction l using b64Encode.induct with
  | case1 => rfl
  | case2 a => simp [b64Encode]
  | case3 a b => simp [b64Encode]
  | case4 a b c rest ih => simp only [b64Encode, List.length_cons]; omega

theorem b64Encode_length_pos (l : List Nat) (h : l ≠ []) : 4 ≤ (b64Encode l).length := by
  match l with
  | [] => exact absurd rfl h
  | [a] => simp [b64Encode]
  | [a, b] => simp [b64Encode]
  | a :: b :: c :: rest => simp only [b64Encode, List.length_cons]; omega

theorem dropEq_append (z y : Char) (t u : List Char) :
    dropEq (z :: y :: t ++ u) = dropEq (z :: y :: t) ++ u := by
  by_cases hz : z = '=' <;> by_cases hy : y = '=' <;> simp [dropEq, hz, hy]

theorem stripPad_append (g e : List Char) (he : 2 ≤ e.length) :
    stripPad (g ++ e) = g ++ stripPad e := by
  match e, he with
  | e₁ :: e₂ :: t, _ =>
    obtain ⟨z, y, u, hrev⟩ : ∃ z y u, (e₁ :: e₂ :: t).reverse = z :: y :: u := by
      have h2 : 2 ≤ (e₁ :: e₂ :: t).reverse.length := by simp
      match hr : (e₁ :: e₂ :: t).reverse, h2 with
      | z :: y :: u, _ => exact ⟨z, y, u, rfl⟩
    unfold stripPad
    rw [List.reverse_append, hrev, dropEq_append]
    simp

theorem b64DecodeGroups_stripPad_encode (l : List Nat) (h : ∀ b ∈ l, b < 256) :
    b64DecodeGroups (stripPad (b64Encode l)) = some l := by
  induction l using b64Encode.induct with
  | case1 => rfl
  | case2 a =>
      have ha : a < 256 := h a (by simp)
      show b64DecodeGroups (stripPad [b64Char (a / 4), b64Char (a % 4 * 16), '=', '=']) = _
      have hstrip : stripPad [b64Char (a / 4), b64Char (a % 4 * 16), '=', '='] =
          [b64Char (a / 4), b64Char (a % 4 * 16)] := by
        simp [stripPad, dropEq]
      rw [hstrip]
      show b64DecodeGroups [b64Char (a / 4), b64Char (a % 4 * 16)] = _
      rw [b64DecodeGroups, (b64Char_spec (a / 4) (by omega)).1,
        (b64Char_spec (a % 4 * 16) (by omega)).1]
      simp only [Option.bind_eq_bind, Option.some_bind, Option.pure_def]
      congr 1
      have : a / 4 * 4 + a % 4 * 16 / 16 = a := by omega
      rw [this]
  | case3 a b =>
      have ha : a < 256 := h a (by simp)
      have hb : b < 256 := h b (by simp)
      have hz := (b64Char_spec (b % 16 * 4) (by omega)).2.2.1
      have hstrip : stripPad [b64Char (a / 4), b64Char (a % 4 * 16 + b / 16), b64Char (b % 16 * 4), '='] =
          [b64Char (a / 4), b64Char (a % 4 * 16 + b / 16), b64Char (b % 16 * 4)] := by
        simp [stripPad, dropEq, hz]
      show b64DecodeGroups (stripPad [b64Char (a / 4), b64Char (a % 4 * 16 + b / 16), b64Char (b % 16 * 4), '=']) = _
      rw [hstrip]
      show b64DecodeGroups [b64Char (a / 4), b64Char (a % 4 * 16 + b / 16), b64Char (b % 16 * 4)] = _
      rw [b64DecodeGroups, (b64Char_spec (a / 4) (by omega)).1,
        (b64Char_spec (a % 4 * 16 + b / 16) (by omega)).1,
        (b64Char_spec (b % 16 * 4) (by omega)).1]
      simp only [Option.bind_eq_bind, Option.some_bind, Option.pure_def]
      congr 1
      have h1 : a / 4 * 4 + (a % 4 * 16 + b / 16) / 16 = a := by omega
      have h2 : (a % 4 * 16 + b / 16) % 16 * 16 + b % 16 * 4 / 4 = b := by omega
      rw [h1, h2]
  | case4 a b c rest ih =>
      have ha : a < 256 := h a (by simp)
      have hb : b < 256 := h b (by simp)
      have hc : c < 256 := h c (by simp)
      have hrest : ∀ x ∈ rest, x < 256 := fun x hx => h x (by simp [hx])
      show b64DecodeGroups (stripPad ([b64Char (a / 4), b64Char (a % 4 * 16 + b / 16),
        b64Char (b % 16 * 4 + c / 64), b64Char (c % 64)] ++ b64Encode rest)) = _
      by_cases hr : rest = []
      · subst hr
        have hz := (b64Char_spec (c % 64) (by omega)).2.2.1
        have hy := (b64Char_spec (b % 16 * 4 + c / 64) (by omega)).2.2.1
        have hstrip : stripPad ([b64Char (a / 4), b64Char (a % 4 * 16 + b / 16),
            b64Char (b % 16 * 4 + c / 64), b64Char (c % 64)] ++ b64Encode []) =
            [b64Char (a / 4), b64Char (a % 4 * 16 + b / 16),
             b64Char (b % 16 * 4 + c / 64), b64Char (c % 64)] := by
          simp [stripPad, dropEq, hz, hy, b64Encode]
        rw [hstrip]
        show b64DecodeGroups [b64Char (a / 4), b64Char (a % 4 * 16 + b / 16),
          b64Char (b % 16 * 4 + c / 64), b64Char (c % 64)] = _
        rw [b64DecodeGroups, (b64Char_spec (a / 4) (by omega)).1,
          (b64Char_spec (a % 4 * 16 + b / 16) (by omega)).1,
          (b64Char_spec (b % 16 * 4 + c / 64) (by omega)).1,
          (b64Char_spec (c % 64) (by omega)).1,
          show b64DecodeGroups [] = some [] from rfl]
        simp only [Option.bind_eq_bind, Option.some_bind, Option.pure_def]
        congr 1
        have h1 : a / 4 * 4 + (a % 4 * 16 + b / 16) / 16 = a := by omega
        have h2 : (a % 4 * 16 + b / 16) % 16 * 16 + (b % 16 * 4 + c / 64) / 4 = b := by omega
        have h3 : (b % 16 * 4 + c / 64) % 4 * 64 + c % 64 = c := by omega
        rw [h1, h2, h3]
      · have hlen : 2 ≤ (b64Encode rest).length :=
          le_trans (by omega) (b64Encode_length_pos rest hr)
        rw [stripPad_append _ _ hlen]
        show b64DecodeGroups (b64Char (a / 4) :: b64Char (a % 4 * 16 + b / 16) ::
          b64Char (b % 16 * 4 + c / 64) :: b64Char (c % 64) :: stripPad (b64Encode rest)) = _
        rw [b64DecodeGroups, (b64Char_spec (a / 4) (by omega)).1,
          (b64Char_spec (a % 4 * 16 + b / 16) (by omega)).1,
          (b64Char_spec (b % 16 * 4 + c / 64) (by omega)).1,
          (b64Char_spec (c % 64) (by omega)).1, ih hrest]
        simp only [Option.bind_eq_bind, Option.some_bind, Option.pure_def]
        congr 1
        have h1 : a / 4 * 4 + (a % 4 * 16 + b / 16) / 16 = a := by omega
        have h2 : (a % 4 * 16 + b / 16) % 16 * 16 + (b % 16 * 4 + c / 64) / 4 = b := by omega
        have h3 : (b % 16 * 4 + c / 64) % 4 * 64 + c % 64 = c := by omega
        rw [h1, h2, h3]

theorem base64_roundtrip_aux (l : List Nat) (h : ∀ b ∈ l, b < 256) :
    base64ToBytes (bytesToBase64 l) = some l := by
  show atob (b64Encode l) = some l
  unfold atob
  simp only [b64Encode_no_ws l h, b64Encode_length_mod l, if_pos rfl]
  exact b64DecodeGroups_stripPad_encode l h

theorem b64Encode_pad_structure (l : List Nat) (h : ∀ b ∈ l, b < 256) :
    ∃ f m, b64Encode l = f ++ List.replicate m '=' ∧
      (∀ c ∈ f, ∃ n, n < 64 ∧ c = b64Char n) ∧ m ≤ 2 ∧ (f.length + m) % 4 = 0 := by
  induction l using b64Encode.induct with
  | case1 => exact ⟨[], 0, rfl, by simp, by omega, rfl⟩
  | case2 a =>
      have ha : a < 256 := h a (by simp)
      refine ⟨[b64Char (a / 4), b64Char (a % 4 * 16)], 2, rfl, ?_, by omega, by simp⟩
      intro c hc
      simp only [List.mem_cons, List.mem_singleton, List.not_mem_nil, or_false] at hc
      rcases hc with h1 | h1
      · exact ⟨a / 4, by omega, h1⟩
      · exact ⟨a % 4 * 16, by omega, h1⟩
  | case3 a b =>
      have ha : a < 256 := h a (by simp)
      have hb : b < 256 := h b (by simp)
      refine ⟨[b64Char (a / 4), b64Char (a % 4 * 16 + b / 16), b64Char (b % 16 * 4)], 1,
        rfl, ?_, by omega, by simp⟩
      intro c hc
      simp only [List.mem_cons, List.mem_singleton, List.not_mem_nil, or_false] at hc
      rcases hc with h1 | h1 | h1
      · exact ⟨a / 4, by omega, h1⟩
      · exact ⟨a % 4 * 16 + b / 16, by omega, h1⟩
      · exact ⟨b % 16 * 4, by omega, h1⟩
  | case4 a b c rest ih =>
      have ha : a < 256 := h a (by simp)
      have hb : b < 256 := h b (by simp)
      have hc : c < 256 := h c (by simp)
      obtain ⟨f, m, henc, hf, hm, hlen⟩ := ih (fun x hx => h x (by simp [hx]))
      refine ⟨b64Char (a / 4) :: b64Char (a % 4 * 16 + b / 16) ::
        b64Char (b % 16 * 4 + c / 64) :: b64Char (c % 64) :: f, m, ?_, ?_, hm, ?_⟩
      · show b64Char (a / 4) :: b64Char (a % 4 * 16 + b / 16) ::
          b64Char (b % 16 * 4 + c / 64) :: b64Char (c % 64) :: b64Encode rest = _
        rw [henc]
        simp
      · intro x hx
        simp only [List.mem_cons] at hx
        rcases hx with h1 | h1 | h1 | h1 | h1
        · exact ⟨a / 4, by omega, h1⟩
        · exact ⟨a % 4 * 16 + b / 16, by omega, h1⟩
        · exact ⟨b % 16 * 4 + c / 64, by omega, h1⟩
        · exact ⟨c % 64, by omega, h1⟩
        · exact hf x h1
      · simp only [List.length_cons]
        omega

theorem base64url_roundtrip_aux (l : List Nat) (h : ∀ b ∈ l, b < 256) :
    base64UrlToBytes (bytesToBase64Url l) = some l := by
  obtain ⟨f, m, henc, hf, hm, hlen⟩ := b64Encode_pad_structure l h
  have hurl : bytesToBase64Url l = f.map urlFwd := by
    unfold bytesToBase64Url
    rw [henc, List.map_append, List.filter_append]
    have h1 : (f.map urlFwd).filter (fun c => c ≠ '=') = f.map urlFwd := by
      rw [List.filter_eq_self]
      intro a ha
      rw [List.mem_map] at ha
      obtain ⟨c, hc, rfl⟩ := ha
      obtain ⟨n, hn, rfl⟩ := hf c hc
      simpa using (b64Char_spec n hn).2.2.2.2
    have h2 : ((List.replicate m '=').map urlFwd).filter (fun c => c ≠ '=') = [] := by
      have : urlFwd '=' = '=' := rfl
      simp [List.map_replicate, this, List.filter_replicate]
    rw [h1, h2, List.append_nil]
  rw [hurl]
  unfold base64UrlToBytes
  have hmapback : (f.map urlFwd).map urlBack = f := by
    rw [List.map_map]
    have : ∀ c ∈ f, (urlBack ∘ urlFwd) c = id c := by
      intro c hc
      obtain ⟨n, hn, rfl⟩ := hf c hc
      simpa using (b64Char_spec n hn).2.2.2.1
    rw [List.map_congr_left this, List.map_id]
  simp only [hmapback, List.length_map]
  have hk : (4 - f.length % 4) % 4 = m := by omega
  rw [hk]
  have : f ++ List.replicate m '=' = b64Encode l := henc.symm
  rw [this]
  exact base64_roundtrip_aux l h

/-! ## Theorems: signature layer -/

theorem append_colon_right_cancel (s c c' : String)
    (h : s ++ ":" ++ c = s ++ ":" ++ c') : c = c' := by
  have hdata := congrArg String.data h
  simp only [String.data_append] at hdata
  have h2 := List.append_cancel_left hdata
  cases c
  cases c'
  exact congrArg String.mk h2

theorem verifyPayload_roundtrip_aux (sender content : String) (ty : MsgType)
    (priv : PrivKey) (id : String) (ts : Nat) :
    (verifyPayload (createSignedPayload sender content ty priv (pubOf priv)) id ts).verified
      = true := by
  simp [createSignedPayload, verifyPayload, verifySignature, signMessage]

/-! ## Theorems: session layer -/

theorem processMessage_lastTimestamp_le (key : SymKey) (st : SessionState)
    (msg : EncryptedMessage) :
    st.lastTimestamp ≤ (processMessage key st msg).1.lastTimestamp := by
  unfold processMessage
  by_cases hmem : msg.id ∈ st.seenIds
  · simp [hmem]
  · simp only [hmem, if_neg, if_false]
    split <;> omega

theorem processMessages_fold_fst (key : SymKey) (msgs : List EncryptedMessage) :
    ∀ (st : SessionState) (evs : List SessionEvent),
      (msgs.foldl
        (fun acc m =>
          let r := processMessage key acc.1 m
          (r.1, acc.2 ++ r.2))
        (st, evs)).1 = (processMessages key st msgs).1 := by
  induction msgs with
  | nil => intro st evs; rfl
  | cons m t ih =>
      intro st evs
      show (t.foldl _ ((processMessage key st m).1, _)).1 = (processMessages key st (m :: t)).1
      rw [ih]
      show _ = (t.foldl _ ((processMessage key st m).1, _)).1
      rw [ih]

theorem processMessages_lastTimestamp_le (key : SymKey) (msgs : List EncryptedMessage) :
    ∀ st : SessionState, st.lastTimestamp ≤ (processMessages key st msgs).1.lastTimestamp := by
  induction msgs with
  | nil => intro st; exact le_refl _
  | cons m t ih =>
      intro st
      have h1 := processMessage_lastTimestamp_le key st m
      have h2 := ih (processMessage key st m).1
      calc st.lastTimestamp ≤ (processMessage key st m).1.lastTimestamp := h1
        _ ≤ (processMessages key (processMessage key st m).1 t).1.lastTimestamp := h2
        _ = (processMessages key st (m :: t)).1.lastTimestamp := by
              show _ = (List.foldl _ (st, []) (m :: t)).1.lastTimestamp
              rw [List.foldl_cons, processMessages_fold_fst]

/-! ## Theorems: URL layer -/

theorem dropWhile_dropWhile (p q : Char → Bool)
    (hpq : ∀ c, p c = true → q c = true) :
    ∀ l : List Char, (l.dropWhile p).dropWhile q = l.dropWhile q := by
  intro l
  induction l with
  | nil => rfl
  | cons a t ih =>
      by_cases hp : p a = true
      · simp [List.dropWhile_cons, hp, hpq a hp, ih]
      · simp [List.dropWhile_cons, hp]

theorem dropWhile_append_ne_nil (p : Char → Bool) :
    ∀ (l m : List Char), l.dropWhile p ≠ [] →
      (l ++ m).dropWhile p = l.dropWhile p ++ m := by
  intro l
  induction l with
  | nil => intro m h; exact absurd rfl h
  | cons a t ih =>
      intro m h
      by_cases hp : p a = true
      · simp only [List.dropWhile_cons, hp, if_true] at h ⊢
        simpa [hp] using ih m h
      · simp [List.dropWhile_cons, hp]

/-- **C1** (code bug). Failing input: an SDK session holding
`seenIds = {"a","b"}` and `lastTimestamp = 100` receives a successful poll
response with `messages = []` and `messageCount = 0`.  `Session.poll`
never reads `messageCount`: it leaves the state unchanged and emits
nothing, treating the cleared room as "no new messages" — while the web
chat module's `poll`, from which the spec sentence derives, clears all
local session state exactly as the claim says. -/
theorem claim_C1_clear_reconciliation :
    Session.poll ⟨0⟩
        { lastTimestamp := 100, seenIds := ["a", "b"], intervalActive := true }
        (.ok [] 0)
      = ({ lastTimestamp := 100, seenIds := ["a", "b"], intervalActive := true }, []) ∧
    chatPoll ⟨0⟩ { lastTimestamp := 100, displayedMessages := ["a", "b"] } (.ok [] 0)
      = ({ lastTimestamp := 0, displayedMessages := [] }, []) := by
  constructor <;> rfl

/-- **C2** (counterexample). A poll cycle whose response has a non-success
HTTP status emits no event at all — in particular no `error` event — and
leaves the state unchanged: `Session.poll` just returns on `!response.ok`.
This contradicts the claim that every transport-level failure is reported
as an `error` event. -/
theorem claim_C2_counterexample :
    Session.poll ⟨0⟩
        { lastTimestamp := 100, seenIds := ["a"], intervalActive := true }
        .httpError
      = ({ lastTimestamp := 100, seenIds := ["a"], intervalActive := true }, []) := by
  rfl

/-- **C2** (amended): a poll cycle whose fetch (or body read) throws emits
exactly one `error` event; one whose response has a non-success status is
silently swallowed with no event.  In both cases `seenIds`,
`lastTimestamp` and the poll schedule (`intervalActive`) are unchanged, so
the next scheduled poll is unaffected. -/
theorem claim_C2_transport_failure (key : SymKey) (st : SessionState) :
    Session.poll key st .fetchThrow = (st, [SessionEvent.error]) ∧
    Session.poll key st .httpError = (st, []) :=
  ⟨rfl, rfl⟩

/-- **C3** (counterexample). `Session.send` resolves with no value: its
result on a successful submission is `.ok ()` regardless of the
server-assigned id and timestamp (here `("m1", 42)` versus `("m2", 99)`),
so it does not return the server-assigned id and timestamp. -/
theorem claim_C3_counterexample :
    (Session.send "Alice" ⟨0⟩ {} "hi" ⟨5⟩ (.okResp "m1" 42)).result = .ok () ∧
    (Session.send "Alice" ⟨0⟩ {} "hi" ⟨5⟩ (.okResp "m2" 99)).result = .ok () ∧
    ("m1", 42) ≠ (("m2" : String), (99 : Nat)) :=
  ⟨rfl, rfl, by decide⟩

/-- **C3** (amended): for every content string, `Session.send` builds the
payload `{sender: session name, content, type: 'text'}`, encrypts it under
the session key, and submits exactly that ciphertext; on success it
resolves with no value (the server-assigned id and timestamp are
discarded), on a thrown fetch it rejects with the transport error, on a
non-success status it rejects with
`Error(error.error || 'Failed to send message')`; in every case `seenIds`
and `lastTimestamp` are unchanged. -/
theorem claim_C3_send (name content : String) (key : SymKey)
    (st : SessionState) (iv : IV) :
    (∀ resp, (Session.send name key st content iv resp).state = st ∧
      (Session.send name key st content iv resp).submitted =
        encryptMessage { sender := name, content := content, type := .text } key iv) ∧
    (∀ id ts, (Session.send name key st content iv (.okResp id ts)).result = .ok ()) ∧
    (Session.send name key st content iv .fetchThrow).result = .error .fetchThrew ∧
    (∀ e, (Session.send name key st content iv (.errStatus e)).result =
      .error (.serverError (jsOrDefault e "Failed to send message"))) := by
  refine ⟨fun resp => ?_, fun id ts => rfl, rfl, fun e => rfl⟩
  cases resp <;> exact ⟨rfl, rfl⟩

/-- **C5**: signature integrity.  Verifying a payload signed with a valid
key pair succeeds; verification returns `false` (never throws — it is a
total function into `Bool`) when the content is altered after signing,
when a different public key is substituted, or when the `signature` or
`publicKey` field is stripped. -/
theorem claim_C5_signature_integrity (sender content : String) (ty : MsgType)
    (priv : PrivKey) (id : String) (ts : Nat) :
    (verifyPayload (createSignedPayload sender content ty priv (pubOf priv)) id ts).verified
        = true ∧
    (∀ c', c' ≠ content →
      (verifyPayload
        { createSignedPayload sender content ty priv (pubOf priv) with content := c' }
        id ts).verified = false) ∧
    (∀ pk', pk' ≠ pubOf priv →
      (verifyPayload
        { createSignedPayload sender content ty priv (pubOf priv) with publicKey := some pk' }
        id ts).verified = false) ∧
    (verifyPayload
      { createSignedPayload sender content ty priv (pubOf priv) with signature := none }
      id ts).verified = false ∧
    (verifyPayload
      { createSignedPayload sender content ty priv (pubOf priv) with publicKey := none }
      id ts).verified = false := by
  refine ⟨verifyPayload_roundtrip_aux sender content ty priv id ts, ?_, ?_, rfl, rfl⟩
  · intro c' hc'
    simp only [createSignedPayload, verifyPayload, verifySignature, signMessage,
      decide_eq_false_iff_not, not_and]
    intro _
    exact fun hEq => hc' (append_colon_right_cancel sender content c' hEq).symm
  · intro pk' hpk'
    simp only [createSignedPayload, verifyPayload, verifySignature, signMessage,
      decide_eq_false_iff_not, not_and]
    exact fun hEq => absurd hEq.symm hpk'

/-- **C5** (witness): the theorem applied at sender `"Alice"`, content
`"hi"`, altered content `"bye"`, substituted key `pubOf ⟨1⟩` for the
signer `⟨0⟩`. -/
theorem claim_C5_witness :
    (verifyPayload (createSignedPayload "Alice" "hi" .text ⟨0⟩ (pubOf ⟨0⟩)) "m1" 42).verified
        = true ∧
    (verifyPayload
        { createSignedPayload "Alice" "hi" .text ⟨0⟩ (pubOf ⟨0⟩) with content := "bye" }
        "m1" 42).verified = false ∧
    (verifyPayload
        { createSignedPayload "Alice" "hi" .text ⟨0⟩ (pubOf ⟨0⟩) with
            publicKey := some (pubOf ⟨1⟩) }
        "m1" 42).verified = false := by
  have h := claim_C5_signature_integrity "Alice" "hi" .text ⟨0⟩ "m1" 42
  exact ⟨h.1, h.2.1 "bye" (by decide), h.2.2.1 (pubOf ⟨1⟩) (by decide)⟩

/-- **C6**: encryption round-trip — decrypting the ciphertext and iv
produced by encryption under the same key recovers exactly the payload,
for every payload, key and drawn nonce. -/
theorem claim_C6_encrypt_roundtrip (P : EncryptedPayload) (K : SymKey) (iv : IV) :
    decryptMessage (encryptMessage P K iv).ciphertext (encryptMessage P K iv).iv K
      = some P := by
  simp [encryptMessage, decryptMessage]

/-- **C4** (counterexample). `"zz"` is not well-formed hex (`'z'` is not a
hex digit), yet `hexToBytes` does not fail: it returns the corrupted byte
sequence `[0]` (`parseInt('zz', 16)` is `NaN`, stored as `0`); likewise
the odd-length input `"abc"` does not fail but is silently truncated to
`[0xab]` — `hexToBytes` is a total function and never signals an error. -/
theorem claim_C4_counterexample :
    hexDigitVal 'z' = none ∧ hexToBytes ['z', 'z'] = [0] ∧
    hexToBytes ['a', 'b', 'c'] = [171] := by
  decide

/-- **C4** (amended): `hexToBytes` never fails on any input.  An
odd-length input is silently truncated — appending a lone trailing
character to an even-length input leaves the decoded bytes unchanged,
because the typed array has only `⌊length/2⌋` cells and the final
out-of-bounds store is ignored.  Input containing non-hex characters is
silently corrupted — each malformed two-character group decodes via
`parseInt` semantics to `0` (no hex-digit prefix) or to the value of its
parsed prefix, e.g. `"zz"` gives `[0]` and `"4g"` gives `[4]`. -/
theorem claim_C4_hexToBytes (s : List Char) (c : Char) :
    (s.length % 2 = 0 → hexToBytes (s ++ [c]) = hexToBytes s) ∧
    hexToBytes ['z', 'z'] = [0] ∧
    hexToBytes ['4', 'g'] = [4] ∧
    hexToBytes ['a', 'b', 'c'] = [171] := by
  refine ⟨fun hs => hexPairsDecode_append_single c s hs, by decide, by decide, by decide⟩

/-- **C4** (witness): the amended theorem applied at the even-length
input `"ab"` with trailing character `'c'`. -/
theorem claim_C4_witness :
    hexToBytes (['a', 'b'] ++ ['c']) = hexToBytes ['a', 'b'] ∧
    hexToBytes ['z', 'z'] = [0] :=
  ⟨(claim_C4_hexToBytes ['a', 'b'] 'c').1 (by decide),
   (claim_C4_hexToBytes ['a', 'b'] 'c').2.1⟩

/-- **C7**: codec round-trip — for every byte sequence,
`hexToBytes ∘ bytesToHex`, `base64ToBytes ∘ bytesToBase64` and
`base64UrlToBytes ∘ bytesToBase64Url` recover the input exactly. -/
theorem claim_C7_codec_roundtrip (x : List Nat) (h : ∀ b ∈ x, b < 256) :
    hexToBytes (bytesToHex x) = x ∧
    base64ToBytes (bytesToBase64 x) = some x ∧
    base64UrlToBytes (bytesToBase64Url x) = some x :=
  ⟨hexToBytes_bytesToHex x h, base64_roundtrip_aux x h, base64url_roundtrip_aux x h⟩

/-- **C7** (witness): the round-trip theorem applied at the byte sequence
`[0, 77, 251, 255]`. -/
theorem claim_C7_witness :
    hexToBytes (bytesToHex [0, 77, 251, 255]) = [0, 77, 251, 255] ∧
    base64ToBytes (bytesToBase64 [0, 77, 251, 255]) = some [0, 77, 251, 255] ∧
    base64UrlToBytes (bytesToBase64Url [0, 77, 251, 255]) = some [0, 77, 251, 255] :=
  claim_C7_codec_roundtrip [0, 77, 251, 255] (by decide)

/-- **C9**: poll-processing dedup and high-water mark.  A message whose id
is already in `seenIds` is skipped with no event and no state change;
otherwise exactly one event is emitted (`message` on successful decrypt,
`decrypt_error` on failure), the id is recorded, and `lastTimestamp`
advances to the maximum; reprocessing the same message emits nothing, and
`lastTimestamp` never decreases across a whole page of messages. -/
theorem claim_C9_dedup_highwater (key : SymKey) (st : SessionState)
    (msg : EncryptedMessage) :
    (msg.id ∈ st.seenIds → processMessage key st msg = (st, [])) ∧
    (msg.id ∉ st.seenIds →
      (processMessage key st msg).1.seenIds = msg.id :: st.seenIds ∧
      (processMessage key st msg).1.lastTimestamp = max st.lastTimestamp msg.timestamp ∧
      (∀ p, decryptMessage msg.ciphertext msg.iv key = some p →
        (processMessage key st msg).2 =
          [SessionEvent.message
            { id := msg.id, sender := p.sender, content := p.content,
              timestamp := msg.timestamp, type := p.type }]) ∧
      (decryptMessage msg.ciphertext msg.iv key = none →
        (processMessage key st msg).2 = [SessionEvent.decryptErr msg.id])) ∧
    processMessage key (processMessage key st msg).1 msg
      = ((processMessage key st msg).1, []) ∧
    (∀ msgs, st.lastTimestamp ≤ (processMessages key st msgs).1.lastTimestamp) := by
  refine ⟨fun hmem => by simp [processMessage, hmem], fun hmem => ?_, ?_, fun msgs =>
    processMessages_lastTimestamp_le key msgs st⟩
  · refine ⟨by simp [processMessage, hmem], ?_, ?_, ?_⟩
    · simp only [processMessage, hmem, if_false]
      show (if st.lastTimestamp < msg.timestamp then msg.timestamp else st.lastTimestamp) = _
      rcases Nat.lt_or_ge st.lastTimestamp msg.timestamp with h | h
      · rw [if_pos h, Nat.max_eq_right (le_of_lt h)]
      · rw [if_neg (by omega), Nat.max_eq_left h]
    · intro p hp
      simp [processMessage, hmem, hp]
    · intro hp
      simp [processMessage, hmem, hp]
  · by_cases hmem : msg.id ∈ st.seenIds
    · simp [processMessage, hmem]
    · have h2 : msg.id ∈ (processMessage key st msg).1.seenIds := by
        simp [processMessage, hmem]
      generalize (processMessage key st msg).1 = st1 at h2 ⊢
      simp [processMessage, h2]

/-- **C9** (witness): the theorem applied at concrete inputs — a fresh
decryptable message, a fresh undecryptable message (wrong key), and an
already-seen message. -/
theorem claim_C9_witness :
    (processMessage ⟨0⟩ { lastTimestamp := 100, seenIds := ["a"], intervalActive := false }
        ⟨"m1", .aesGcm ⟨0⟩ ⟨7⟩ ⟨"Alice", "hi", .text, none, none⟩, ⟨7⟩, 120⟩).1.seenIds
      = ["m1", "a"] ∧
    (processMessage ⟨0⟩ { lastTimestamp := 100, seenIds := ["a"], intervalActive := false }
        ⟨"m1", .aesGcm ⟨0⟩ ⟨7⟩ ⟨"Alice", "hi", .text, none, none⟩, ⟨7⟩, 120⟩).1.lastTimestamp
      = max 100 120 ∧
    (processMessage ⟨0⟩ { lastTimestamp := 100, seenIds := ["a"], intervalActive := false }
        ⟨"m1", .aesGcm ⟨0⟩ ⟨7⟩ ⟨"Alice", "hi", .text, none, none⟩, ⟨7⟩, 120⟩).2
      = [SessionEvent.message
          { id := "m1", sender := "Alice", content := "hi", timestamp := 120, type := .text }] ∧
    (processMessage ⟨0⟩ { lastTimestamp := 100, seenIds := ["a"], intervalActive := false }
        ⟨"m2", .aesGcm ⟨1⟩ ⟨7⟩ ⟨"Alice", "hi", .text, none, none⟩, ⟨7⟩, 120⟩).2
      = [SessionEvent.decryptErr "m2"] ∧
    processMessage ⟨0⟩ { lastTimestamp := 100, seenIds := ["m1"], intervalActive := false }
        ⟨"m1", .aesGcm ⟨0⟩ ⟨7⟩ ⟨"Alice", "hi", .text, none, none⟩, ⟨7⟩, 120⟩
      = ({ lastTimestamp := 100, seenIds := ["m1"], intervalActive := false }, []) := by
  have h1 := claim_C9_dedup_highwater ⟨0⟩
    { lastTimestamp := 100, seenIds := ["a"], intervalActive := false }
    ⟨"m1", .aesGcm ⟨0⟩ ⟨7⟩ ⟨"Alice", "hi", .text, none, none⟩, ⟨7⟩, 120⟩
  have h2 := claim_C9_dedup_highwater ⟨0⟩
    { lastTimestamp := 100, seenIds := ["a"], intervalActive := false }
    ⟨"m2", .aesGcm ⟨1⟩ ⟨7⟩ ⟨"Alice", "hi", .text, none, none⟩, ⟨7⟩, 120⟩
  have h3 := claim_C9_dedup_highwater ⟨0⟩
    { lastTimestamp := 100, seenIds := ["m1"], intervalActive := false }
    ⟨"m1", .aesGcm ⟨0⟩ ⟨7⟩ ⟨"Alice", "hi", .text, none, none⟩, ⟨7⟩, 120⟩
  exact ⟨(h1.2.1 (by decide)).1, (h1.2.1 (by decide)).2.1,
    (h1.2.1 (by decide)).2.2.1 ⟨"Alice", "hi", .text, none, none⟩ (by decide),
    (h2.2.1 (by decide)).2.2.2 (by decide), h3.1 (by decide)⟩

/-- **C10** (implicit): signed-string ambiguity.  The signed string is the
unescaped concatenation `sender + ":" + content`, so the distinct pairs
`("a:b", "c")` and `("a", "b:c")` produce the same signed string; a
signature created for the first makes `verifyPayload` report
`verified: true` for a payload carrying the second under the same public
key. -/
theorem claim_C10_signed_string_ambiguity (priv : PrivKey) (id : String) (ts : Nat) :
    (("a:b", "c") ≠ (("a" : String), ("b:c" : String))) ∧
    ("a:b" ++ ":" ++ "c" : String) = "a" ++ ":" ++ "b:c" ∧
    (verifyPayload
        { sender := "a", content := "b:c", type := .text,
          publicKey := some (pubOf priv),
          signature := (createSignedPayload "a:b" "c" .text priv (pubOf priv)).signature }
        id ts).verified = true := by
  refine ⟨by decide, by decide, ?_⟩
  simp only [createSignedPayload, verifyPayload, verifySignature, signMessage]
  rw [show ("a" ++ ":" ++ "b:c" : String) = "a:b" ++ ":" ++ "c" by decide]
  simp

end Fogchan
